import Mathlib

/-
Verification of the McCode VS Code extension core (vscode-extension/extension.js)
against its natural-language specification.

The development shallowly embeds the extension's client core:
  * the virtual C document cache (`McCodeVirtualCProvider`, lines 19-43),
  * the refresh channel (`refreshVirtualC`, lines 213-229, and the
    `$/mclsp/virtualCDocumentContent` notification handler, lines 348-353),
  * the debounced sync scheduler (the `onDidOpenTextDocument`,
    `onDidChangeTextDocument` and `onDidCloseTextDocument` handlers,
    lines 360-390),
  * the server resolver (`commandExists`, `findPython`,
    `resolveMclspServer`, lines 52-192).

JavaScript `Map` objects with string keys are embedded as association lists;
JavaScript truthiness on optional strings is embedded explicitly (absent or
empty means falsy); external effects (process probes, user prompts, pip
installs) are embedded as explicit inputs recording their outcomes.
-/

set_option autoImplicit false

namespace Mclsp

/-! ### Association-list embedding of JavaScript `Map` -/

/-- `Map.set`: overwrite the entry for `k` in place, or append a fresh one. -/
def setAssoc {κ α : Type} [DecidableEq κ] : List (κ × α) → κ → α → List (κ × α)
  | [], k, v => [(k, v)]
  | (a, b) :: rest, k, v =>
    if a = k then (k, v) :: rest else (a, b) :: setAssoc rest k v

/-- `Map.delete`: drop every entry whose key is `k`. -/
def removeAssoc {κ α : Type} [DecidableEq κ] : List (κ × α) → κ → List (κ × α)
  | [], _ => []
  | (a, b) :: rest, k =>
    if a = k then removeAssoc rest k else (a, b) :: removeAssoc rest k

/-- `Map.get`: first entry whose key is `k`, if any. -/
def lookupAssoc {κ α : Type} [DecidableEq κ] : List (κ × α) → κ → Option α
  | [], _ => none
  | (a, b) :: rest, k => if a = k then some b else lookupAssoc rest k

theorem lookupAssoc_setAssoc {κ α : Type} [DecidableEq κ]
    (l : List (κ × α)) (k : κ) (v : α) (k' : κ) :
    lookupAssoc (setAssoc l k v) k' = if k = k' then some v else lookupAssoc l k' := by
  induction l with
  | nil => simp [setAssoc, lookupAssoc]
  | cons hd tl ih =>
    obtain ⟨a, b⟩ := hd
    by_cases hak : a = k
    · subst hak
      by_cases hkk : a = k'
      · subst hkk; simp [setAssoc, lookupAssoc]
      · simp [setAssoc, lookupAssoc, hkk]
    · by_cases hak' : a = k'
      · subst hak'
        simp [setAssoc, lookupAssoc, hak, Ne.symm hak]
      · simp [setAssoc, lookupAssoc, hak, hak', ih]

theorem lookupAssoc_removeAssoc {κ α : Type} [DecidableEq κ]
    (l : List (κ × α)) (k k' : κ) :
    lookupAssoc (removeAssoc l k) k' = if k = k' then none else lookupAssoc l k' := by
  induction l with
  | nil => simp [removeAssoc, lookupAssoc]
  | cons hd tl ih =>
    obtain ⟨a, b⟩ := hd
    by_cases hak : a = k
    · subst hak
      by_cases hkk : a = k'
      · subst hkk; simp [removeAssoc, lookupAssoc, ih]
      · simp [removeAssoc, lookupAssoc, hkk, ih]
    · by_cases hak' : a = k'
      · subst hak'
        simp [removeAssoc, lookupAssoc, hak, Ne.symm hak]
      · simp [removeAssoc, lookupAssoc, hak, hak', ih]

/-! ### Virtual document cache (`McCodeVirtualCProvider`, extension.js 19-43)

The provider holds `this._cache`, a `Map` from virtual URI strings to content
strings.  `provideTextDocumentContent` reads through the map with a fixed
placeholder; `update` sets; `remove` deletes.  (Firing the change emitter has
no effect on the cache itself and is not modelled.) -/

/-- The fixed placeholder returned for absent entries (extension.js line 30). -/
def placeholder : String := "/* loading… */"

/-- The provider's `_cache` map: virtual URI string → content string. -/
structure VCache where
  entries : List (String × String)
deriving DecidableEq

/-- Empty cache, as built by the provider's constructor. -/
def VCache.empty : VCache := ⟨[]⟩

/-- `provideTextDocumentContent`: `this._cache.get(uri.toString()) ?? '/* loading… */'`.
A pure read: it takes the cache and returns a string, touching nothing. -/
def VCache.read (c : VCache) (k : String) : String :=
  (lookupAssoc c.entries k).getD placeholder

/-- `update(virtualUriString, content)`: `this._cache.set(virtualUriString, content)`. -/
def VCache.update (c : VCache) (k v : String) : VCache :=
  ⟨setAssoc c.entries k v⟩

/-- `remove(virtualUriString)`: `this._cache.delete(virtualUriString)`. -/
def VCache.remove (c : VCache) (k : String) : VCache :=
  ⟨removeAssoc c.entries k⟩

/-- A call against the cache: one of the two mutating operations. -/
inductive CacheOp : Type
  | update (k v : String)
  | remove (k : String)
deriving DecidableEq

/-- Apply one cache operation. -/
def applyOp (c : VCache) : CacheOp → VCache
  | .update k v => c.update k v
  | .remove k => c.remove k

/-- Apply a finite sequence of cache operations to the freshly constructed cache. -/
def applyOps (ops : List CacheOp) : VCache :=
  ops.foldl applyOp VCache.empty

/-- The content of the most recently applied `update` for `k` that is not
followed by a `remove` of `k`, if any. -/
def lastWrite (ops : List CacheOp) (k : String) : Option String :=
  ops.foldl
    (fun acc op =>
      match op with
      | .update k' v => if k' = k then some v else acc
      | .remove k' => if k' = k then none else acc)
    none

theorem lookupAssoc_applyOp (c : VCache) (op : CacheOp) (k : String) :
    lookupAssoc (applyOp c op).entries k =
      match op with
      | .update k' v => if k' = k then some v else lookupAssoc c.entries k
      | .remove k' => if k' = k then none else lookupAssoc c.entries k := by
  cases op with
  | update k' v =>
    simp [applyOp, VCache.update, lookupAssoc_setAssoc]
  | remove k' =>
    simp [applyOp, VCache.remove, lookupAssoc_removeAssoc]

theorem lookupAssoc_foldl_applyOp (ops : List CacheOp) :
    ∀ (c : VCache) (k : String),
      lookupAssoc (ops.foldl applyOp c).entries k =
        ops.foldl
          (fun acc op =>
            match op with
            | .update k' v => if k' = k then some v else acc
            | .remove k' => if k' = k then none else acc)
          (lookupAssoc c.entries k) := by
  induction ops with
  | nil => intro c k; rfl
  | cons op rest ih =>
    intro c k
    simp only [List.foldl_cons]
    rw [ih (applyOp c op) k, lookupAssoc_applyOp]

/-- Claim C3: for every key and every finite sequence of `update`/`remove`
calls on the cache, `read(key)` returns the content argument of the most
recently applied `update` for that key since the last `remove` of that key,
and the fixed "loading" placeholder if no such update exists.  (`read` is a
pure function of the cache in this embedding, so it mutates nothing.) -/
theorem read_returns_last_write (ops : List CacheOp) (k : String) :
    (applyOps ops).read k = (lastWrite ops k).getD placeholder := by
  unfold VCache.read applyOps lastWrite
  rw [lookupAssoc_foldl_applyOp]
  rfl

/-! ### Refresh channel: pull (`refreshVirtualC`, extension.js 213-229)

`refreshVirtualC` sends `workspace/executeCommand` (`mclsp.getVirtualC`) and,
when the awaited result is truthy and its `content` field is truthy, calls
`virtualCProvider.update(result.virtualUri, result.content)`; on any other
outcome (no client, a thrown request, an absent result, or an absent or empty
`content`) it only logs.  The request's outcome is embedded as an explicit
`Except` input: `.error` for a throw caught by the `try`/`catch`, `.ok none`
for a falsy result, `.ok (some r)` otherwise; an absent `content` field is
`none`, and JavaScript truthiness on it is `some c` with `c ≠ ""`. -/

/-- The shape of a `mclsp.getVirtualC` result when one is delivered.  Fields
the handler may find missing are `Option`s. -/
structure VirtualCResult where
  virtualUri : String
  content : Option String
deriving DecidableEq

/-- JavaScript truthiness of an optional string field:
absent (`undefined`) and the empty string are falsy. -/
def truthy : Option String → Bool
  | some s => s ≠ ""
  | none => false

/-- `refreshVirtualC`: the pull path's effect on the cache, given whether the
language client exists and the outcome of the `getVirtualC` request.  The
function is total: a failed request is caught and only logged, so the caller
never sees it. -/
def refreshVirtualC (hasClient : Bool) (cache : VCache)
    (response : Except String (Option VirtualCResult)) : VCache :=
  if !hasClient then cache
  else
    match response with
    | .error _ => cache
    | .ok none => cache
    | .ok (some r) =>
      match r.content with
      | some c => if c ≠ "" then cache.update r.virtualUri c else cache
      | none => cache

/-- A pull request outcome that counts as a failure: the request threw, or the
response is absent, or its `content` field is absent or empty. -/
def failedResponse : Except String (Option VirtualCResult) → Bool
  | .error _ => true
  | .ok none => true
  | .ok (some r) => !truthy r.content

/-- Claim C4: for every pull issued through the refresh channel, if the
request fails (it throws, or the response is absent, or the response's
`content` field is absent or empty) then no update is applied — the cache is
returned exactly as it was — and, `refreshVirtualC` being a total function
into `VCache`, the failure never propagates to the caller. -/
theorem failed_pull_leaves_cache (hasClient : Bool) (cache : VCache)
    (response : Except String (Option VirtualCResult))
    (h : failedResponse response = true) :
    refreshVirtualC hasClient cache response = cache := by
  cases hasClient with
  | false => rfl
  | true =>
    cases response with
    | error e => rfl
    | ok r =>
      cases r with
      | none => rfl
      | some r =>
        cases hc : r.content with
        | none => simp [refreshVirtualC, hc]
        | some c =>
          simp only [failedResponse, truthy, hc, Bool.not_eq_true'] at h
          simp only [decide_eq_false_iff_not, Decidable.not_not] at h
          simp [refreshVirtualC, hc, h]

theorem failed_pull_leaves_cache_witness :
    refreshVirtualC true ⟨[("mccode-c:///w/foo.instr.c", "int x;")]⟩
        (Except.ok (some ⟨"mccode-c:///w/foo.instr.c", some ""⟩)) =
      ⟨[("mccode-c:///w/foo.instr.c", "int x;")]⟩ :=
  failed_pull_leaves_cache true ⟨[("mccode-c:///w/foo.instr.c", "int x;")]⟩
    (Except.ok (some ⟨"mccode-c:///w/foo.instr.c", some ""⟩)) (by decide)

/-! ### Refresh channel: push (notification handler, extension.js 348-353)

`client.onNotification('$/mclsp/virtualCDocumentContent', (params) => {
  if (params && params.virtualUri && params.content) {
    virtualCProvider.update(params.virtualUri, params.content); } })` -/

/-- The push notification payload; both fields may be missing. -/
structure PushParams where
  virtualUri : Option String
  content : Option String
deriving DecidableEq

/-- The `$/mclsp/virtualCDocumentContent` notification handler's effect on the
cache.  Total: a malformed payload takes the guard's false branch. -/
def onVirtualCContent (cache : VCache) (params : Option PushParams) : VCache :=
  match params with
  | none => cache
  | some p =>
    match p.virtualUri, p.content with
    | some u, some c => if u ≠ "" ∧ c ≠ "" then cache.update u c else cache
    | some _, none => cache
    | none, _ => cache

/-- Claim C10: for every incoming push notification, the cache is updated
(under the key given by the notification's `virtualUri`) if and only if the
payload is present and both its `virtualUri` and `content` fields are present
and non-empty.  A push with a missing payload, or a missing or empty
`virtualUri` or `content`, applies no update and leaves the cache unchanged
(and the handler, being a total function, never throws).  In the applied case
the new cache reads back `content` at the pushed key and is untouched at
every other key. -/
theorem push_updates_iff_wellformed (cache : VCache) (params : Option PushParams) :
    ((∀ p u c, params = some p → p.virtualUri = some u → p.content = some c →
        u = "" ∨ c = "") →
      onVirtualCContent cache params = cache)
    ∧ (∀ p u c, params = some p → p.virtualUri = some u → p.content = some c →
        u ≠ "" → c ≠ "" →
        onVirtualCContent cache params = cache.update u c
          ∧ (onVirtualCContent cache params).read u = c
          ∧ ∀ k, k ≠ u → (onVirtualCContent cache params).read k = cache.read k) := by
  constructor
  · intro hbad
    cases params with
    | none => rfl
    | some p =>
      cases hu : p.virtualUri with
      | none => simp [onVirtualCContent, hu]
      | some u =>
        cases hc : p.content with
        | none => simp [onVirtualCContent, hu, hc]
        | some c =>
          have := hbad p u c rfl hu hc
          rcases this with h | h
          · subst h; simp [onVirtualCContent, hu, hc]
          · subst h; simp [onVirtualCContent, hu, hc]
  · intro p u c hp hu hc hune hcne
    subst hp
    have happ : onVirtualCContent cache (some p) = cache.update u c := by
      simp [onVirtualCContent, hu, hc, hune, hcne]
    refine ⟨happ, ?_, ?_⟩
    · rw [happ]
      simp [VCache.read, VCache.update, lookupAssoc_setAssoc]
    · intro k hk
      rw [happ]
      simp [VCache.read, VCache.update, lookupAssoc_setAssoc, Ne.symm hk]

theorem push_updates_iff_wellformed_witness :
    onVirtualCContent ⟨[]⟩ (some ⟨some "mccode-c:///w/foo.instr.c", some "int x;"⟩) =
        VCache.update ⟨[]⟩ "mccode-c:///w/foo.instr.c" "int x;"
      ∧ (onVirtualCContent ⟨[]⟩
          (some ⟨some "mccode-c:///w/foo.instr.c", some "int x;"⟩)).read
            "mccode-c:///w/foo.instr.c" = "int x;"
      ∧ ∀ k, k ≠ "mccode-c:///w/foo.instr.c" →
          (onVirtualCContent ⟨[]⟩
            (some ⟨some "mccode-c:///w/foo.instr.c", some "int x;"⟩)).read k =
            VCache.read ⟨[]⟩ k :=
  (push_updates_iff_wellformed ⟨[]⟩
      (some ⟨some "mccode-c:///w/foo.instr.c", some "int x;"⟩)).2
    ⟨some "mccode-c:///w/foo.instr.c", some "int x;"⟩
    "mccode-c:///w/foo.instr.c" "int x;" rfl rfl rfl (by decide) (by decide)

/-! ### Sync scheduler (extension.js 360-390)

The three lifecycle handlers registered in `activate`:

  * open (361-367): if the document qualifies, immediately
    `refreshVirtualC(doc.uri.toString(), doc.getText())`;
  * change (369-380): if the document qualifies,
    `clearTimeout(debounceTimer); debounceTimer = setTimeout(..., 500)` where
    the callback pulls `doc.getText()` *at fire time* — note that
    `debounceTimer` is a single `let` binding shared by every document;
  * close (382-390): if the document qualifies,
    `virtualCProvider.remove('mccode-c://' + doc.uri.path + '.c')` — the
    handler does not touch `debounceTimer`.

The embedding is a discrete-time state machine over time-stamped events fed
in chronological order.  Before an event at time `t` is handled, a pending
timer whose deadline is ≤ `t` fires (the event loop runs due callbacks
first); `run` finally lets any still-pending timer fire.  A fired timer or an
open handler records a pull request `{doc, sourceText, time}`; the eventual
cache effect of a pull is the refresh channel's business (`refreshVirtualC`
above), not the scheduler's, so pulls are recorded, not applied. -/

/-- The identity of a text document as the handlers see it:
`doc.uri.path` and `doc.languageId`. -/
structure Doc where
  uriPath : String
  languageId : String
deriving DecidableEq

/-- `doc.uri.path.match(/\.(instr|comp)$/i)` -/
def isMcCodePath (p : String) : Bool :=
  p.toLower.endsWith ".instr" || p.toLower.endsWith ".comp"

/-- The guard common to the three handlers: the change handler returns early
unless `doc.languageId === 'mccode' || doc.uri.path.match(/\.(instr|comp)$/i)`
(its source writes the negation), and open/close test the same disjunction. -/
def qualifies (d : Doc) : Bool :=
  d.languageId == "mccode" || isMcCodePath d.uriPath

/-- The virtual key the close handler derives:
`'mccode-c://' + doc.uri.path + '.c'`. -/
def virtualKey (d : Doc) : String :=
  "mccode-c://" ++ d.uriPath ++ ".c"

/-- A time-stamped editor lifecycle event.  `change` carries the document's
full text after the edit (the editor has applied the edit before the handler
runs); `openDoc` carries the text the document has when opened. -/
inductive SchedEvent : Type
  | openDoc (d : Doc) (text : String) (t : Nat)
  | change (d : Doc) (text : String) (t : Nat)
  | close (d : Doc) (t : Nat)
deriving DecidableEq

/-- A recorded pull request: `refreshVirtualC(doc.uri.toString(), sourceText)`
issued at `time`. -/
structure Pull where
  doc : Doc
  sourceText : String
  time : Nat
deriving DecidableEq

/-- Scheduler state: the single shared `debounceTimer` slot (holding the
captured document and its deadline), the editor's current document texts, the
provider cache as touched by the close handler, and the pulls issued so far. -/
structure SchedState where
  timer : Option (Doc × Nat)
  texts : List (Doc × String)
  cache : List (String × String)
  pulls : List Pull
deriving DecidableEq

/-- `doc.getText()`: the current text of `d` ("" before any event mentions it). -/
def textOf (ts : List (Doc × String)) (d : Doc) : String :=
  (lookupAssoc ts d).getD ""

/-- Let the pending timer fire now: its callback pulls the captured document's
text as it is at fire time, and the timer slot empties. -/
def fireTimer (st : SchedState) : SchedState :=
  match st.timer with
  | none => st
  | some (d, deadline) =>
    { st with
      timer := none
      pulls := st.pulls ++ [⟨d, textOf st.texts d, deadline⟩] }

/-- Fire the pending timer if its deadline has been reached at time `now`. -/
def fireDue (st : SchedState) (now : Nat) : SchedState :=
  match st.timer with
  | some (_, deadline) => if deadline ≤ now then fireTimer st else st
  | none => st

/-- One lifecycle event, as handled by extension.js 360-390. -/
def step (st : SchedState) (e : SchedEvent) : SchedState :=
  match e with
  | .openDoc d s t =>
    let st1 := fireDue st t
    let st2 := { st1 with texts := setAssoc st1.texts d s }
    if qualifies d then
      { st2 with pulls := st2.pulls ++ [⟨d, textOf st2.texts d, t⟩] }
    else st2
  | .change d s t =>
    let st1 := fireDue st t
    let st2 := { st1 with texts := setAssoc st1.texts d s }
    if qualifies d then { st2 with timer := some (d, t + 500) } else st2
  | .close d t =>
    let st1 := fireDue st t
    if qualifies d then
      { st1 with cache := removeAssoc st1.cache (virtualKey d) }
    else st1

/-- The state before any event: no pending timer, no texts, empty cache. -/
def initState : SchedState :=
  { timer := none, texts := [], cache := [], pulls := [] }

/-- Run a chronologically ordered event trace from the initial state and then
let any still-pending timer fire. -/
def run (es : List SchedEvent) : SchedState :=
  fireTimer (es.foldl step initState)

/-- The change events of a burst of edits to the one document `d`:
each pair is (text after the edit, time of the edit). -/
def mkBurst (d : Doc) (bs : List (String × Nat)) : List SchedEvent :=
  bs.map (fun p => SchedEvent.change d p.1 p.2)

/-- `withinGaps prev bs`: the times in `bs` are chronological, starting no
earlier than `prev`, and each event arrives strictly less than 500 ms after
the previous one. -/
def withinGaps : Nat → List (String × Nat) → Bool
  | _, [] => true
  | prev, (_, t) :: rest => (prev ≤ t && t < prev + 500) && withinGaps t rest

/-- The time of the last event of a burst (`prev` if the burst is empty). -/
def lastTime (prev : Nat) : List (String × Nat) → Nat
  | [] => prev
  | (_, t) :: rest => lastTime t rest

/-- The text of the last event of a burst (`dflt` if the burst is empty). -/
def lastText (dflt : String) : List (String × Nat) → String
  | [] => dflt
  | (s, _) :: rest => lastText s rest

/-! ### Scheduler theorems -/

/-- A qualifying McCode document used in concrete traces. -/
def docA : Doc := ⟨"/w/a.instr", "mccode"⟩

/-- A second, distinct qualifying McCode document. -/
def docB : Doc := ⟨"/w/b.instr", "mccode"⟩

/-- Claim C1 counterexample: the claim says pending timers for different
source documents are independent and interleaved edits to two documents each
eventually produce their own pull.  In the code `debounceTimer` is one shared
`let` binding, so the qualifying edit to `docB` at t=100 clears `docA`'s
pending timer: the trace [edit A at 0, edit B at 100] produces exactly one
pull — for `docB` at t=600 — and no pull for `docA` at all. -/
theorem interleaved_edits_lose_first_doc_pull :
    (run [SchedEvent.change docA "a1" 0, SchedEvent.change docB "b1" 100]).pulls =
        [⟨docB, "b1", 600⟩]
      ∧ (run [SchedEvent.change docA "a1" 0,
          SchedEvent.change docB "b1" 100]).pulls.filter (fun p => p.doc == docA) =
        [] := by
  decide

/-- Claim C1 (amended): the scheduler maintains at most one live debounce
timer globally — a single shared slot, not one per source document.  After
any qualifying change event the pending timer belongs to the edited document
with deadline 500 ms later, so a qualifying change event for document A
cancels and replaces whatever timer was pending, including one belonging to a
different document B; interleaved edits to two documents within the window
therefore produce a pull only for the document edited last. -/
theorem change_replaces_shared_timer (st : SchedState) (d : Doc) (s : String)
    (t : Nat) (hq : qualifies d = true) :
    (step st (SchedEvent.change d s t)).timer = some (d, t + 500) := by
  simp [step, hq]

theorem change_replaces_shared_timer_witness :
    (step { timer := some (docB, 600), texts := [], cache := [], pulls := [] }
        (SchedEvent.change docA "x" 100)).timer = some (docA, 100 + 500) :=
  change_replaces_shared_timer
    { timer := some (docB, 600), texts := [], cache := [], pulls := [] }
    docA "x" 100 (by decide)

/-- Claim C2 counterexample: the claim says an edit followed by a close before
the 500 ms window elapses produces zero pulls for that edit.  The close
handler (extension.js 383-390) removes the cache entry but never touches
`debounceTimer`, so the trace [edit A at 0, close A at 50] still produces one
pull for `docA`, firing at t=500 — not zero. -/
theorem close_does_not_cancel_pending_pull :
    (run [SchedEvent.change docA "x" 0, SchedEvent.close docA 50]).pulls =
      [⟨docA, "x", 500⟩] := by
  decide

/-- Claim C2 (amended): when a source document is closed, its cache entry
under the deterministically derived virtual key
(`'mccode-c://' + doc.uri.path + '.c'`) is removed and the close handler
itself issues no pull, but a pending debounce timer is NOT cancelled: the
timer slot, and the pulls recorded so far, are exactly those after any
already-due timer fired on its own, so an edit followed by a close before the
500 ms window elapses still produces that edit's pull when the timer fires. -/
theorem close_removes_cache_entry_only (st : SchedState) (d : Doc) (t : Nat)
    (hq : qualifies d = true) :
    (step st (SchedEvent.close d t)).timer = (fireDue st t).timer
      ∧ (step st (SchedEvent.close d t)).pulls = (fireDue st t).pulls
      ∧ (step st (SchedEvent.close d t)).cache =
          removeAssoc (fireDue st t).cache (virtualKey d)
      ∧ lookupAssoc (step st (SchedEvent.close d t)).cache (virtualKey d) = none := by
  refine ⟨by simp [step, hq], by simp [step, hq], by simp [step, hq], ?_⟩
  simp [step, hq, lookupAssoc_removeAssoc]

theorem close_removes_cache_entry_only_witness :
    (step ⟨some (docA, 500), [(docA, "x")], [("mccode-c:///w/a.instr.c", "old")], []⟩
          (SchedEvent.close docA 50)).timer =
        (fireDue ⟨some (docA, 500), [(docA, "x")],
          [("mccode-c:///w/a.instr.c", "old")], []⟩ 50).timer
      ∧ (step ⟨some (docA, 500), [(docA, "x")],
            [("mccode-c:///w/a.instr.c", "old")], []⟩
          (SchedEvent.close docA 50)).pulls =
        (fireDue ⟨some (docA, 500), [(docA, "x")],
          [("mccode-c:///w/a.instr.c", "old")], []⟩ 50).pulls
      ∧ (step ⟨some (docA, 500), [(docA, "x")],
            [("mccode-c:///w/a.instr.c", "old")], []⟩
          (SchedEvent.close docA 50)).cache =
        removeAssoc (fireDue ⟨some (docA, 500), [(docA, "x")],
          [("mccode-c:///w/a.instr.c", "old")], []⟩ 50).cache (virtualKey docA)
      ∧ lookupAssoc (step ⟨some (docA, 500), [(docA, "x")],
            [("mccode-c:///w/a.instr.c", "old")], []⟩
          (SchedEvent.close docA 50)).cache (virtualKey docA) = none :=
  close_removes_cache_entry_only
    ⟨some (docA, 500), [(docA, "x")], [("mccode-c:///w/a.instr.c", "old")], []⟩
    docA 50 (by decide)

theorem burst_foldl_state (d : Doc) (hq : qualifies d = true) :
    ∀ (bs : List (String × Nat)) (st : SchedState) (prev : Nat),
      st.timer = some (d, prev + 500) → withinGaps prev bs = true →
      ((mkBurst d bs).foldl step st).pulls = st.pulls
        ∧ ((mkBurst d bs).foldl step st).cache = st.cache
        ∧ ((mkBurst d bs).foldl step st).timer = some (d, lastTime prev bs + 500)
        ∧ textOf ((mkBurst d bs).foldl step st).texts d =
            lastText (textOf st.texts d) bs := by
  intro bs
  induction bs with
  | nil =>
    intro st prev ht _
    simp [mkBurst, lastTime, lastText, ht]
  | cons p rest ih =>
    obtain ⟨s, t⟩ := p
    intro st prev ht hg
    simp only [withinGaps, Bool.and_eq_true, decide_eq_true_eq] at hg
    obtain ⟨⟨hpt, hlt⟩, hrest⟩ := hg
    have hnotdue : ¬ (prev + 500 ≤ t) := by omega
    have hfire : fireDue st t = st := by
      simp [fireDue, ht, hnotdue]
    have hstep : step st (SchedEvent.change d s t) =
        { st with texts := setAssoc st.texts d s, timer := some (d, t + 500) } := by
      simp [step, hfire, hq]
    have hcons : mkBurst d ((s, t) :: rest) =
        SchedEvent.change d s t :: mkBurst d rest := by
      simp [mkBurst]
    obtain ⟨ihp, ihc, iht, ihtx⟩ :=
      ih { st with texts := setAssoc st.texts d s, timer := some (d, t + 500) }
        t rfl hrest
    have htx0 : textOf (setAssoc st.texts d s) d = s := by
      simp [textOf, lookupAssoc_setAssoc]
    rw [hcons]
    simp only [List.foldl_cons, hstep]
    refine ⟨ihp, ihc, ?_, ?_⟩
    · rw [iht]; rfl
    · rw [ihtx]
      simp only at htx0
      rw [htx0]
      rfl

/-- Claim C9: for any burst of qualifying change events to the same source
document, each spaced less than 500 ms after the previous one, exactly one
pull is issued; it fires 500 ms after the last edit of the burst, and its
`sourceText` argument is the document's text at the time the timer fires —
the text of the last edit — so no pull carries the text of any earlier edit
of the burst. -/
theorem burst_yields_single_last_pull (d : Doc) (hq : qualifies d = true)
    (s0 : String) (t0 : Nat) (rest : List (String × Nat))
    (hg : withinGaps t0 rest = true) :
    (run (mkBurst d ((s0, t0) :: rest))).pulls =
      [⟨d, lastText s0 rest, lastTime t0 rest + 500⟩] := by
  have hcons : mkBurst d ((s0, t0) :: rest) =
      SchedEvent.change d s0 t0 :: mkBurst d rest := by
    simp [mkBurst]
  have h1 : step initState (SchedEvent.change d s0 t0) =
      { initState with texts := setAssoc [] d s0, timer := some (d, t0 + 500) } := by
    simp [step, fireDue, initState, hq]
  obtain ⟨hp, hc, ht, htx⟩ :=
    burst_foldl_state d hq rest
      { initState with texts := setAssoc [] d s0, timer := some (d, t0 + 500) }
      t0 rfl hg
  have htx0 : textOf (setAssoc ([] : List (Doc × String)) d s0) d = s0 := by
    simp [textOf, lookupAssoc_setAssoc]
  unfold run
  rw [hcons]
  simp only [List.foldl_cons, h1]
  simp only [fireTimer, ht, hp, hc]
  simp only at htx
  rw [htx]
  simp only at htx0
  rw [htx0]
  simp [initState]

theorem burst_yields_single_last_pull_witness :
    (run (mkBurst docA [("a", 0), ("b", 100), ("c", 200)])).pulls =
      [⟨docA, "c", 700⟩] :=
  burst_yields_single_last_pull docA (by decide) "a" 0 [("b", 100), ("c", 200)]
    (by decide)

/-! ### Server resolver (extension.js 52-192)

External effects are embedded as explicit inputs of a `ResolverEnv`:
the two configuration strings (`mccode.serverPath`, `mccode.pythonPath`,
each `config.get(...) || ''`), the `MCLSP_SERVER` environment variable, the
interpreter the VS Code Python extension reports (already folded through its
`try`/`catch`: `none` when the extension is absent, reports nothing, or
throws), and the outcomes of the external processes the resolver may run:
`<cmd> --version` probes, `<python> -m mclsp --version` checks,
`pip install` runs, and the user's answer to the install prompt. -/

/-- JavaScript `String.prototype.trim()`: strip leading and trailing
whitespace. -/
def jsTrim (s : String) : String :=
  ⟨((s.data.dropWhile Char.isWhitespace).reverse.dropWhile Char.isWhitespace).reverse⟩

/-- The outcome of `execFileAsync(cmd, ...)`: it either resolves (with the
process's stdout) or rejects with an error whose `code` distinguishes
`'ENOENT'`, `'EACCES'`, a non-zero exit status, a timeout kill, etc. -/
inductive ExecOutcome : Type
  | success (stdout : String)
  | failure (code : String)
deriving DecidableEq

/-- `commandExists(cmd)` (extension.js 52-60): try `cmd --version`; on success
return true; in the catch, `return e.code !== 'ENOENT' && e.code !== 'EACCES'`
— so any failure other than those two codes, including a non-zero exit,
still counts as present. -/
def commandExists (o : ExecOutcome) : Bool :=
  match o with
  | .success _ => true
  | .failure code => !(code == "ENOENT") && !(code == "EACCES")

/-- The numeric value of a digit run. -/
def natOfDigits (ds : List Char) : Nat :=
  ds.foldl (fun n c => 10 * n + (c.toNat - '0'.toNat)) 0

/-- One anchored attempt of the regex `/Python 3\.(\d+)/`: succeed when the
text begins with the literal `Python 3.` followed by at least one digit, and
return the value of the maximal digit run (`parseInt(m[1], 10)`). -/
def pyMatchAt (cs : List Char) : Option Nat :=
  match cs with
  | 'P' :: 'y' :: 't' :: 'h' :: 'o' :: 'n' :: ' ' :: '3' :: '.' :: rest =>
    let ds := rest.takeWhile Char.isDigit
    if ds.isEmpty then none else some (natOfDigits ds)
  | _ => none

/-- Scan for the first position where `/Python 3\.(\d+)/` matches. -/
def pyMinorAux : List Char → Option Nat
  | [] => none
  | c :: rest =>
    match pyMatchAt (c :: rest) with
    | some n => some n
    | none => pyMinorAux rest

/-- `stdout.match(/Python 3\.(\d+)/)`, returning `parseInt(m[1], 10)`:
the minor version the candidate interpreter reports, if the pattern occurs. -/
def pyMinor (s : String) : Option Nat :=
  pyMinorAux s.data

/-- Everything external the resolver consults, recorded as data. -/
structure ResolverEnv where
  /-- `config.get('serverPath') || ''` -/
  serverPath : String
  /-- `process.env.MCLSP_SERVER` (`none` when unset) -/
  mclspServerEnv : Option String
  /-- `config.get('pythonPath') || ''` -/
  pythonPath : String
  /-- the interpreter path the VS Code Python extension reports, with its
  whole best-effort branch folded in: `none` when the extension is missing,
  reports nothing, or throws -/
  pyExtInterp : Option String
  /-- outcome of `execFileAsync(cmd, ['--version'])` for each command -/
  versionProbe : String → ExecOutcome
  /-- whether `python -m mclsp --version` exits successfully (`isMclspInstalled`) -/
  mclspModuleOk : String → Bool
  /-- the button returned by the "mclsp is not installed" prompt
  (`none` when dismissed) -/
  installChoice : Option String
  /-- whether `python -m pip install --upgrade mclsp` succeeds (`installMclsp`) -/
  installOk : String → Bool

/-- The PATH-candidate loop of `findPython` (extension.js 84-91): for each
candidate run `candidate --version`, match `/Python 3\.(\d+)/` against its
stdout, and return the first candidate whose captured minor version is ≥ 10;
a throw or a failed match just moves on. -/
def tryCandidates (env : ResolverEnv) : List String → Option String
  | [] => none
  | c :: rest =>
    match env.versionProbe c with
    | .success stdout =>
      match pyMinor stdout with
      | some minor => if 10 ≤ minor then some c else tryCandidates env rest
      | none => tryCandidates env rest
    | .failure _ => tryCandidates env rest

/-- `findPython` (extension.js 65-93): the trimmed `mccode.pythonPath`
setting if it probes as existing, else the Python extension's interpreter if
it probes as existing, else the first acceptable candidate of
`['python3', 'python']`. -/
def findPython (env : ResolverEnv) : Option String :=
  let configuredPython := jsTrim env.pythonPath
  if (configuredPython != "") && commandExists (env.versionProbe configuredPython) then
    some configuredPython
  else
    match env.pyExtInterp with
    | some interp =>
      if (interp != "") && commandExists (env.versionProbe interp) then some interp
      else tryCandidates env ["python3", "python"]
    | none => tryCandidates env ["python3", "python"]

/-- Whether `findPython`'s first branch (the explicit `mccode.pythonPath`
setting) accepts. -/
def configuredPythonAccepted (env : ResolverEnv) : Bool :=
  (jsTrim env.pythonPath != "") && commandExists (env.versionProbe (jsTrim env.pythonPath))

/-- Whether `findPython`'s second branch (the Python extension's active
interpreter) accepts. -/
def pyExtAccepted (env : ResolverEnv) : Bool :=
  match env.pyExtInterp with
  | some interp => (interp != "") && commandExists (env.versionProbe interp)
  | none => false

/-- A PATH candidate is acceptable exactly when its probe resolves and its
reported minor version parses to at least 10. -/
def acceptsCandidate (env : ResolverEnv) (c : String) : Bool :=
  match env.versionProbe c with
  | .success stdout =>
    match pyMinor stdout with
    | some minor => 10 ≤ minor
    | none => false
  | .failure _ => false

/-- The `{ command, args }` pair `resolveMclspServer` returns. -/
structure ServerCommand where
  command : String
  args : List String
deriving DecidableEq

/-- The observable outcome of `resolveMclspServer`: the returned command (or
`null`), the value written to `globalState` under `'mclsp.resolvedPython'`
(if any), and whether `installMclsp` was invoked. -/
structure ResolveOutcome where
  server : Option ServerCommand
  persistedPython : Option String
  installAttempted : Bool
deriving DecidableEq

/-- Branches 3 and 4 of `resolveMclspServer` (extension.js 155-192): probe
`mclsp` on PATH; otherwise locate a Python, check `-m mclsp`, prompt and
install when missing, persist the resolved Python on success. -/
def resolveFromPath (env : ResolverEnv) : ResolveOutcome :=
  if commandExists (env.versionProbe "mclsp") then
    ⟨some ⟨"mclsp", ["--stdio"]⟩, none, false⟩
  else
    match findPython env with
    | none => ⟨none, none, false⟩
    | some python =>
      if env.mclspModuleOk python then
        ⟨some ⟨python, ["-m", "mclsp", "--stdio"]⟩, some python, false⟩
      else if env.installChoice = some "Install now" then
        if env.installOk python then
          ⟨some ⟨python, ["-m", "mclsp", "--stdio"]⟩, some python, true⟩
        else ⟨none, none, true⟩
      else ⟨none, none, false⟩

/-- `resolveMclspServer` (extension.js 141-192).  Branch 1: the trimmed
`mccode.serverPath` setting, accepted as-is when non-empty.  Branch 2: the
`MCLSP_SERVER` environment variable when truthy.  Then the PATH/interpreter
branches of `resolveFromPath`. -/
def resolveMclspServer (env : ResolverEnv) : ResolveOutcome :=
  let configuredPath := jsTrim env.serverPath
  if configuredPath != "" then
    ⟨some ⟨configuredPath, ["--stdio"]⟩, none, false⟩
  else
    match env.mclspServerEnv with
    | some s => if s != "" then ⟨some ⟨s, ["--stdio"]⟩, none, false⟩
                else resolveFromPath env
    | none => resolveFromPath env

/-! ### Resolver theorems -/

/-- Claim C5: the resolver evaluates its branches in the fixed priority order
(1) explicit configured command path, (2) environment-variable override,
(3) bare `mclsp` on PATH, (4) interpreter-mediated launch, and the first
satisfied branch fully determines the result.  With a non-empty explicit
command path the result is that path with `--stdio` — an equation whose right
side mentions no other field of the environment, so the `MCLSP_SERVER`
variable and every probe are ignored.  With an empty explicit path and a
non-empty `MCLSP_SERVER`, the result is the variable's value with `--stdio` —
an equation mentioning no probe and no interpreter-discovery field, so
branches 3 and 4 are never attempted.  With neither of the first two set but
the bare command probing as present, the result is `mclsp --stdio` — again
independent of every interpreter-discovery field, so interpreter discovery is
never entered. -/
theorem resolver_first_branch_wins (env : ResolverEnv) :
    (jsTrim env.serverPath ≠ "" →
        resolveMclspServer env =
          ⟨some ⟨jsTrim env.serverPath, ["--stdio"]⟩, none, false⟩)
      ∧ (jsTrim env.serverPath = "" →
          ∀ s, env.mclspServerEnv = some s → s ≠ "" →
          resolveMclspServer env = ⟨some ⟨s, ["--stdio"]⟩, none, false⟩)
      ∧ (jsTrim env.serverPath = "" → truthy env.mclspServerEnv = false →
          commandExists (env.versionProbe "mclsp") = true →
          resolveMclspServer env = ⟨some ⟨"mclsp", ["--stdio"]⟩, none, false⟩) := by
  refine ⟨?_, ?_, ?_⟩
  · intro h
    simp [resolveMclspServer, h]
  · intro h1 s hs hne
    simp [resolveMclspServer, h1, hs, hne]
  · intro h1 h2 h3
    cases henv : env.mclspServerEnv with
    | none =>
      simp [resolveMclspServer, h1, henv, resolveFromPath, h3]
    | some s =>
      rw [henv] at h2
      simp only [truthy, decide_eq_false_iff_not, Decidable.not_not] at h2
      subst h2
      simp [resolveMclspServer, h1, henv, resolveFromPath, h3]

theorem resolver_first_branch_wins_witness :
    resolveMclspServer
        { serverPath := "srv", mclspServerEnv := some "envsrv", pythonPath := "",
          pyExtInterp := none, versionProbe := fun _ => ExecOutcome.failure "ENOENT",
          mclspModuleOk := fun _ => false, installChoice := none,
          installOk := fun _ => false } =
      ⟨some ⟨"srv", ["--stdio"]⟩, none, false⟩ :=
  (resolver_first_branch_wins
    { serverPath := "srv", mclspServerEnv := some "envsrv", pythonPath := "",
      pyExtInterp := none, versionProbe := fun _ => ExecOutcome.failure "ENOENT",
      mclspModuleOk := fun _ => false, installChoice := none,
      installOk := fun _ => false }).1 (by decide)

/-- Claim C6 counterexample: the claim says the probe returns "not present"
exactly when the invocation fails with "command not found" (`ENOENT`), every
other outcome counting as "present".  But `commandExists` also returns false
for an `EACCES` (permission denied) failure, which is a different outcome
from command-not-found. -/
theorem commandExists_eacces_also_not_present :
    commandExists (ExecOutcome.failure "EACCES") = false
      ∧ ExecOutcome.failure "EACCES" ≠ ExecOutcome.failure "ENOENT" := by
  decide

/-- Claim C6 (amended): the existence probe used for the bare server command
(and for configured interpreter paths) returns "not present" exactly when
invoking the command fails with `ENOENT` (command not found) or `EACCES`
(permission denied); every other outcome of the probe invocation, including a
non-zero exit code, is classified as "present". -/
theorem commandExists_false_iff (o : ExecOutcome) :
    commandExists o = false ↔
      o = ExecOutcome.failure "ENOENT" ∨ o = ExecOutcome.failure "EACCES" := by
  cases o with
  | success s => simp [commandExists]
  | failure code =>
    by_cases h1 : code = "ENOENT"
    · subst h1; simp [commandExists]
    · by_cases h2 : code = "EACCES"
      · subst h2; simp [commandExists]
      · simp [commandExists, h1, h2]

theorem tryCandidates_eq_find (env : ResolverEnv) :
    ∀ cs, tryCandidates env cs = List.find? (fun c => acceptsCandidate env c) cs := by
  intro cs
  induction cs with
  | nil => rfl
  | cons c rest ih =>
    cases hp : env.versionProbe c with
    | success stdout =>
      cases hm : pyMinor stdout with
      | some minor =>
        by_cases h10 : 10 ≤ minor
        · simp [tryCandidates, acceptsCandidate, hp, hm, h10, List.find?]
        · simp [tryCandidates, acceptsCandidate, hp, hm, h10, List.find?, ih]
      | none => simp [tryCandidates, acceptsCandidate, hp, hm, List.find?, ih]
    | failure code => simp [tryCandidates, acceptsCandidate, hp, List.find?, ih]

/-- Claim C7: when `findPython` falls back to the well-known interpreter
command names on PATH (its first two branches having accepted nothing), the
result is the first of `['python3', 'python']` that is acceptable, and a
candidate is acceptable exactly when its probe resolves and its reported
version string parses under `/Python 3\.(\d+)/` to a minor version of at
least 10 — so every candidate reporting a minor version below 10 is rejected
and the first one reporting 10 or more is returned. -/
theorem fallback_candidates_version_floor (env : ResolverEnv)
    (h1 : configuredPythonAccepted env = false)
    (h2 : pyExtAccepted env = false) :
    findPython env = List.find? (fun c => acceptsCandidate env c) ["python3", "python"]
      ∧ ∀ c, acceptsCandidate env c = true ↔
          ∃ stdout minor, env.versionProbe c = ExecOutcome.success stdout
            ∧ pyMinor stdout = some minor ∧ 10 ≤ minor := by
  constructor
  · have h1' : ((jsTrim env.pythonPath != "")
        && commandExists (env.versionProbe (jsTrim env.pythonPath))) = false := h1
    cases hpe : env.pyExtInterp with
    | none =>
      simp only [findPython, h1', hpe, Bool.false_eq_true, if_false]
      exact tryCandidates_eq_find env _
    | some interp =>
      have h2' : ((interp != "") && commandExists (env.versionProbe interp)) = false := by
        have := h2
        rw [pyExtAccepted, hpe] at this
        exact this
      simp only [findPython, h1', hpe, h2', Bool.false_eq_true, if_false]
      exact tryCandidates_eq_find env _
  · intro c
    constructor
    · intro h
      cases hp : env.versionProbe c with
      | success stdout =>
        simp only [acceptsCandidate, hp] at h
        cases hm : pyMinor stdout with
        | some minor =>
          simp only [hm, decide_eq_true_eq] at h
          exact ⟨stdout, minor, rfl, hm, h⟩
        | none => simp [hm] at h
      | failure code => simp [acceptsCandidate, hp] at h
    · rintro ⟨stdout, minor, hp, hm, h10⟩
      simp only [acceptsCandidate, hp, hm, decide_eq_true_eq]
      exact h10

theorem fallback_candidates_version_floor_witness :
    findPython
        { serverPath := "", mclspServerEnv := none, pythonPath := "",
          pyExtInterp := none,
          versionProbe := fun c =>
            if c == "python3" then ExecOutcome.success "Python 3.9.2"
            else if c == "python" then ExecOutcome.success "Python 3.12.1"
            else ExecOutcome.failure "ENOENT",
          mclspModuleOk := fun _ => true, installChoice := none,
          installOk := fun _ => false } =
      List.find?
        (fun c => acceptsCandidate
          { serverPath := "", mclspServerEnv := none, pythonPath := "",
            pyExtInterp := none,
            versionProbe := fun c =>
              if c == "python3" then ExecOutcome.success "Python 3.9.2"
              else if c == "python" then ExecOutcome.success "Python 3.12.1"
              else ExecOutcome.failure "ENOENT",
            mclspModuleOk := fun _ => true, installChoice := none,
            installOk := fun _ => false } c)
        ["python3", "python"] :=
  (fallback_candidates_version_floor
    { serverPath := "", mclspServerEnv := none, pythonPath := "",
      pyExtInterp := none,
      versionProbe := fun c =>
        if c == "python3" then ExecOutcome.success "Python 3.9.2"
        else if c == "python" then ExecOutcome.success "Python 3.12.1"
        else ExecOutcome.failure "ENOENT",
      mclspModuleOk := fun _ => true, installChoice := none,
      installOk := fun _ => false } (by decide) (by decide)).1

/-- Claim C8: in the interpreter-mediated branch with the server module not
installed, declining the install prompt yields no resolved command, nothing
persisted and no install attempt; accepting with a successful install yields
the interpreter-mediated command `python -m mclsp --stdio` with the chosen
interpreter path persisted under `'mclsp.resolvedPython'`; accepting with a
failed install yields no resolved command. -/
theorem install_consent_flow (env : ResolverEnv) (python : String)
    (h1 : jsTrim env.serverPath = "")
    (h2 : truthy env.mclspServerEnv = false)
    (h3 : commandExists (env.versionProbe "mclsp") = false)
    (h4 : findPython env = some python)
    (h5 : env.mclspModuleOk python = false) :
    (env.installChoice ≠ some "Install now" →
        resolveMclspServer env = ⟨none, none, false⟩)
      ∧ (env.installChoice = some "Install now" → env.installOk python = true →
          resolveMclspServer env =
            ⟨some ⟨python, ["-m", "mclsp", "--stdio"]⟩, some python, true⟩)
      ∧ (env.installChoice = some "Install now" → env.installOk python = false →
          resolveMclspServer env = ⟨none, none, true⟩) := by
  have hbody : resolveMclspServer env =
      (if env.installChoice = some "Install now" then
        (if env.installOk python then
          ⟨some ⟨python, ["-m", "mclsp", "--stdio"]⟩, some python, true⟩
        else ⟨none, none, true⟩)
      else ⟨none, none, false⟩) := by
    have hchain : resolveMclspServer env = resolveFromPath env := by
      cases henv : env.mclspServerEnv with
      | none => simp [resolveMclspServer, h1, henv]
      | some s =>
        rw [henv] at h2
        simp only [truthy, decide_eq_false_iff_not, Decidable.not_not] at h2
        subst h2
        simp [resolveMclspServer, h1, henv]
    rw [hchain]
    simp [resolveFromPath, h3, h4, h5]
  refine ⟨?_, ?_, ?_⟩
  · intro hc
    simp [hbody, hc]
  · intro hc hok
    simp [hbody, hc, hok]
  · intro hc hok
    simp [hbody, hc, hok]

theorem install_consent_flow_witness :
    resolveMclspServer
        { serverPath := "", mclspServerEnv := none, pythonPath := "",
          pyExtInterp := none,
          versionProbe := fun c =>
            if c == "python3" then ExecOutcome.success "Python 3.11.0"
            else ExecOutcome.failure "ENOENT",
          mclspModuleOk := fun _ => false,
          installChoice := some "Install now",
          installOk := fun _ => true } =
      ⟨some ⟨"python3", ["-m", "mclsp", "--stdio"]⟩, some "python3", true⟩ :=
  (install_consent_flow
    { serverPath := "", mclspServerEnv := none, pythonPath := "",
      pyExtInterp := none,
      versionProbe := fun c =>
        if c == "python3" then ExecOutcome.success "Python 3.11.0"
        else ExecOutcome.failure "ENOENT",
      mclspModuleOk := fun _ => false,
      installChoice := some "Install now",
      installOk := fun _ => true } "python3"
    (by decide) (by decide) (by decide) (by decide) (by decide)).2.1 rfl (by decide)

end Mclsp
